import Mathlib

/-!
Verification development for the `taskg` terminal task browser.

The definitions below are a shallow embedding of the Go sources:
  * `internal/taskmeta` (task discovery: `Task`, `DiscoverTasks`, `listViaPlain`
    output parsing, `parseTaskfileYAML`, `extractCmds`, `enrichTaskCmds`), and
  * `internal/app` (`TaskModel`, `NewTaskModel`, `Update`, `handleKeys`,
    `handleMouse`, `buildTabs`, `updateFilter`, `ensureSelectionVisible`,
    `visibleListHeight`, tab movement).

Modelling conventions:
  * Go `int` is `Int` (widths, heights, indices, line numbers); all index
    arithmetic including the possibility of negative indices is kept.
  * Effects are made explicit: the results of the three external listing
    strategies are passed to `DiscoverTasks` as `Except String (List Task)`
    values, and the YAML document is passed to `parseTaskfileYAML` as an
    already-unmarshalled `YVal` tree (the `gopkg.in/yaml` unmarshaller and the
    filesystem are outside the repository).  A Go map is represented by its
    entry list; iterating that list stands for Go's map iteration order.
  * An indexing operation that would panic in Go is modelled by `Option`:
    `Update` returns `none` exactly when the Go program would panic.
  * Character classes (`unicode.IsPrint`, `unicode.IsSpace`), `strings.ToLower`
    and `strings.TrimSpace` are modelled on the ASCII range, which is the range
    the claims and tests exercise.
  * Presentation-only data (themes, lipgloss rendering, the textinput cursor
    blink) is dropped; the textinput component is modelled by its value split
    at the cursor (`searchBefore`/`searchAfter`), insertion, backspace and
    cursor movement, with the 128-rune `CharLimit` of `NewTaskModel`.
-/

namespace TaskG

/-- ASCII model of Go `unicode.IsSpace`. -/
def goIsSpace (c : Char) : Bool :=
  c = ' ' || c = '\t' || c = '\n' || c = '\x0b' || c = '\x0c' || c = '\r'

/-- ASCII model of Go `unicode.IsPrint` (printable ASCII, including space). -/
def goIsPrint (c : Char) : Bool := 0x20 ≤ c.toNat && c.toNat ≤ 0x7e

/-- ASCII model of Go `strings.ToLower`. -/
def goToLower (s : String) : String := String.mk (s.toList.map Char.toLower)

/-- ASCII model of Go `strings.TrimSpace`: drop leading and trailing space. -/
def goTrim (s : String) : String :=
  String.mk (((s.toList.dropWhile goIsSpace).reverse.dropWhile goIsSpace).reverse)

/-- Split a character list on a separator character (`strings.Split` for a
one-character separator). -/
def splitCharsOn (sep : Char) : List Char → List (List Char)
  | [] => [[]]
  | c :: cs =>
    let r := splitCharsOn sep cs
    if c = sep then [] :: r
    else
      match r with
      | [] => [[c]]
      | g :: gs => (c :: g) :: gs

/-- `strings.Split` for a one-character separator. -/
def splitOnChar (sep : Char) (s : String) : List String :=
  (splitCharsOn sep s.toList).map String.mk

/-- Whether a string starts with the given character (`strings.HasPrefix` for a
one-character prefix). -/
def startsWithChar (s : String) (c : Char) : Bool :=
  match s.toList with
  | [] => false
  | x :: _ => x = c

/-- Drop the first character of a string (`strings.TrimPrefix` after a
confirmed one-character prefix). -/
def strDropFirst (s : String) : String := String.mk (s.toList.drop 1)

/-- Drop the last character of a string. -/
def strDropLast (s : String) : String := String.mk s.toList.dropLast

/-- The last character of a string as a string, or empty. -/
def strLastChar (s : String) : String :=
  match s.toList.getLast? with
  | some c => String.singleton c
  | none => ""

/-- The first character of a string as a string, or empty. -/
def strFirstChar (s : String) : String :=
  match s.toList with
  | c :: _ => String.singleton c
  | [] => ""

/-- A discovered task, mirroring `taskmeta.Task` (fields Name, Desc, Cmds, Line). -/
structure Task where
  name : String
  desc : String
  cmds : List String
  line : Int
deriving DecidableEq, Repr, Inhabited

/-- An unmarshalled YAML value, the shapes `parseTaskfileYAML` and `extractCmds`
inspect via Go type assertions (`string`, `[]any`, `map[string]any`, anything else). -/
inductive YVal where
  | str (s : String)
  | list (l : List YVal)
  | dict (entries : List (String × YVal))
  | other
deriving Repr, Inhabited

/-- Lookup in an unmarshalled YAML mapping (Go `rm[key]`; keys of a YAML map are unique). -/
def yLookup (entries : List (String × YVal)) (k : String) : Option YVal :=
  (entries.find? (fun e => e.1 == k)).map (fun e => e.2)

mutual

/-- `taskmeta.extractCmds`: flatten a `cmds`/`cmd` field that may be a string,
a nested list, or anything else (ignored), preserving encounter order. -/
def extractCmds : YVal → List String
  | .str s => if goTrim s = "" then [] else [s]
  | .list l => extractCmdsList l
  | .dict _ => []
  | .other => []

/-- Flattening of a YAML list for `extractCmds` (the `[]any` loop). -/
def extractCmdsList : List YVal → List String
  | [] => []
  | v :: vs => extractCmds v ++ extractCmdsList vs

end

/-- One entry of the `tasks:` mapping in `parseTaskfileYAML`: a non-map value is
skipped (`continue`); `desc` must be a string; `cmds` is consulted first and
`cmd` only when it yielded nothing.  The produced `Task` carries `line = 0`
(the Go zero value; the direct parse never sets `Line`). -/
def parseYamlEntry (entry : String × YVal) (acc : List Task) : List Task :=
  match entry.2 with
  | .dict rm =>
    let ds := match yLookup rm ("desc") with
      | some (.str d) => d
      | _ => ""
    let cs := match yLookup rm ("cmds") with
      | some v => extractCmds v
      | none => []
    let cs := if cs = [] then
        (match yLookup rm ("cmd") with
         | some v => extractCmds v
         | none => []) else cs
    { name := entry.1, desc := ds, cmds := cs, line := 0 } :: acc
  | _ => acc

/-- `taskmeta.parseTaskfileYAML` after unmarshalling: require a top-level map
with a `tasks` map, then build one `Task` per entry in iteration order. -/
def parseTaskfileYAML (doc : YVal) : Except String (List Task) :=
  match doc with
  | .dict node =>
    match yLookup node ("tasks") with
    | some (.dict sec) => .ok (sec.foldr parseYamlEntry [])
    | _ => .error ("no tasks map in Taskfile")
  | _ => .error ("no tasks map in Taskfile")

/-- Split a plain-listing line body at its first `:` (Go `strings.Index(l, ":")`):
the name part and the remainder (which may itself contain further colons). -/
def splitFirstColon (s : String) : String × String :=
  match splitOnChar ':' s with
  | [] => (s, "")
  | [_] => (s, "")
  | x :: rest => (x, String.intercalate ":" rest)

/-- The task a plain-listing line yields: nameless lines are dropped; the
produced `Task` has no commands and `line = 0` (the Go zero value). -/
def mkPlainTask (nm ds : String) : Option Task :=
  if nm = "" then none else some { name := nm, desc := ds, cmds := [], line := 0 }

/-- One line of `task --list` output in `listViaPlain`: trim, require a `*`
bullet, split `name: desc` at the first colon. -/
def parsePlainLine (rawLine : String) : Option Task :=
  let l := goTrim rawLine
  if startsWithChar l '*' then
    let l2 := goTrim (strDropFirst l)
    let hasColon := 2 ≤ (splitOnChar ':' l2).length
    let nm := if hasColon then goTrim (splitFirstColon l2).1 else l2
    let ds := if hasColon then goTrim (splitFirstColon l2).2 else ""
    mkPlainTask nm ds
  else none

/-- The parsing phase of `taskmeta.listViaPlain`: split the captured stdout into
lines and keep the bullet lines, in order. -/
def parsePlainOutput (out : String) : List Task :=
  (splitOnChar '\n' out).foldr
    (fun l acc => match parsePlainLine l with
      | some t => t :: acc
      | none => acc) []

/-- Index of the last task with a given name (the Go `idx` map in
`enrichTaskCmds` maps each name to a pointer to the last slice element bearing it). -/
def lastIdxOf (ts : List Task) (nm : String) : Option Nat :=
  match ts with
  | [] => none
  | t :: rest =>
    match lastIdxOf rest nm with
    | some i => some (i + 1)
    | none => if t.name = nm then some 0 else none

/-- Replace the element at an index (in-bounds only), the effect of writing
through the pointer stored in the Go `idx` map. -/
def modifyIdx : List Task → Nat → (Task → Task) → List Task
  | [], _, _ => []
  | t :: ts, 0, f => f t :: ts
  | t :: ts, Nat.succ n, f => t :: modifyIdx ts n f

/-- The per-match update of `enrichTaskCmds`: fill commands only when the task
has none and the parsed entry has some; fill the description only when it is
empty and the parsed one is not. -/
def enrichStep (t p : Task) : Task :=
  let t1 := if t.cmds = [] ∧ ¬ p.cmds = [] then { t with cmds := p.cmds } else t
  if t1.desc = "" ∧ ¬ p.desc = "" then { t1 with desc := p.desc } else t1

/-- The enrichment loop of `taskmeta.enrichTaskCmds` over the parsed entries:
each parsed task updates (through `idx`) the last listed task of the same name. -/
def enrichGo (ts ps : List Task) : List Task :=
  ps.foldl
    (fun acc p =>
      match lastIdxOf ts p.name with
      | some i => modifyIdx acc i (fun t => enrichStep t p)
      | none => acc) ts

/-- `taskmeta.enrichTaskCmds`: a failed direct parse leaves the listing untouched. -/
def enrichTaskCmds (parsed : Except String (List Task)) (ts : List Task) : List Task :=
  match parsed with
  | .error _ => ts
  | .ok ps => enrichGo ts ps

/-- The error outcomes of `taskmeta.DiscoverTasks`: the `task` binary missing
from PATH, or all three strategies unusable (with the three underlying errors,
`none` standing for a nil error of a strategy that ran but found zero tasks). -/
inductive DiscoverError where
  | toolMissing
  | discoveryFailed (jsonErr plainErr yamlErr : Option String)
deriving DecidableEq, Repr

/-- A strategy result is usable when it succeeded with at least one task
(the `err == nil && len(tasks) > 0` tests in `DiscoverTasks`). -/
def stratUsable : Except String (List Task) → Option (List Task)
  | .ok ts => if ts = [] then none else some ts
  | .error _ => none

/-- The error component a strategy contributes to the aggregated failure. -/
def stratErr : Except String (List Task) → Option String
  | .ok _ => none
  | .error e => some e

/-- `taskmeta.DiscoverTasks` over the outcomes of its effects: `taskOnPath` is
whether `exec.LookPath("task")` succeeds; `json`, `plain` are the two external
listings; `yaml` is the direct `parseTaskfileYAML` of the Taskfile (used both
as the last-resort strategy and, via `enrichTaskCmds`, for enrichment). -/
def DiscoverTasks (taskOnPath : Bool) (json plain yaml : Except String (List Task)) :
    Except DiscoverError (List Task) :=
  if taskOnPath = false then .error .toolMissing
  else
    match stratUsable json with
    | some ts => .ok (enrichTaskCmds yaml ts)
    | none =>
      match stratUsable plain with
      | some ts => .ok (enrichTaskCmds yaml ts)
      | none =>
        match stratUsable yaml with
        | some ts => .ok ts
        | none => .error (.discoveryFailed (stratErr json) (stratErr plain) (stratErr yaml))

/-- Stable insertion of one element: keep walking while an earlier element is
strictly smaller, so equal keys keep their original relative order. -/
def insertLt {α : Type} (lt : α → α → Bool) (x : α) : List α → List α
  | [] => [x]
  | y :: ys => if lt y x then y :: insertLt lt x ys else x :: y :: ys

/-- Stable sort by a strict comparison, the model of Go `sort.SliceStable`
(and of `sort.Strings`, whose keys here are distinct). -/
def stableSort {α : Type} (lt : α → α → Bool) (l : List α) : List α :=
  l.foldr (insertLt lt) []

/-- The `less` function of the by-line sorts (`tasks[i].Line < tasks[j].Line`). -/
def lineLt (a b : Task) : Bool := a.line < b.line

/-- The `less` function of the alphabetical in-tab sort (`tasks[i].Name < tasks[j].Name`). -/
def nameLt (a b : Task) : Bool := a.name < b.name

/-- String comparison used by `sort.Strings` on the tab labels. -/
def strLt (a b : String) : Bool := a < b

/-- Tab label of a task in `buildTabs`: `strings.SplitN(name, "-", 2)` — the
part before the first `-`, or `"main"` when the name has no `-`. -/
def taskLabel (t : Task) : String :=
  match splitOnChar '-' t.name with
  | [] => "main"
  | [_] => "main"
  | p :: _ => p

/-- The first-seen label order of `buildTabs` (the `prefixes`/`prefixSet` loop
over the declaration-order task sequence). -/
def firstSeenLabels (ts : List Task) : List String :=
  ts.foldl (fun acc t => if acc.contains (taskLabel t) then acc else acc ++ [taskLabel t]) []

/-- First index of `"main"` among the labels (the `mainIndex` scan with `break`). -/
def firstIdxOfMain : List String → Option Nat
  | [] => none
  | p :: ps => if p = "main" then some 0 else (firstIdxOfMain ps).map (fun i => i + 1)

/-- The unconditional hoist in `buildTabs`: when `"main"` exists and is not
already first, move it to the front (this runs under BOTH sort policies). -/
def hoistMain (ps : List String) : List String :=
  match firstIdxOfMain ps with
  | none => ps
  | some 0 => ps
  | some (Nat.succ i) => "main" :: ps.eraseIdx (Nat.succ i)

/-- In-tab member sort of `buildTabs`: stably by name under `"alpha"`, stably
by line otherwise (`"file"`). -/
def sortWithin (sortMode : String) (l : List Task) : List Task :=
  if sortMode = "alpha" then stableSort nameLt l else stableSort lineLt l

/-- The ordered tab labels `buildTabs` computes from a base task list:
first-seen order, alphabetical only under `"alpha"`, then the `"main"` hoist. -/
def tabsOf (sortMode : String) (base : List Task) : List String :=
  let ps := firstSeenLabels base
  let ps := if sortMode = "alpha" then stableSort strLt ps else ps
  hoistMain ps

/-- The tab partition (`prefixMap` with each member list sorted), keyed in tab
order.  Appending to `prefixMap[p]` while walking the base list is exactly an
order-preserving filter by label. -/
def groupsOf (sortMode : String) (base : List Task) : List (String × List Task) :=
  (tabsOf sortMode base).map
    (fun p => (p, sortWithin sortMode (base.filter (fun t => taskLabel t == p))))

/-- Go map read `m.tabTasks[k]` with the `nil -> []` replacement of `updateFilter`. -/
def lookupTab (groups : List (String × List Task)) (k : String) : List Task :=
  match groups.find? (fun e => e.1 == k) with
  | some e => e.2
  | none => []

/-- The declaration-order sort policy name. -/
def declMode : String := "file"

/-- Concatenation of all tab members, tabs in tab order and members in member
order, under the declaration-order policy (the flattening of the round-trip law). -/
def flattenDecl (tasks : List Task) : List Task :=
  ((groupsOf declMode tasks).map (fun e => e.2)).flatten

/-- Substring test over character lists (Go `strings.Contains`; on well-formed
UTF-8, byte-level and rune-level substring coincide). -/
def containsChars (hay needle : List Char) : Bool :=
  match hay with
  | [] => needle.isEmpty
  | _ :: t => needle.isPrefixOf hay || containsChars t needle

/-- The search haystack of `updateFilter`: name, description and the
space-joined commands, space-separated. -/
def haystack (t : Task) : String :=
  t.name ++ " " ++ t.desc ++ " " ++ String.intercalate " " t.cmds

/-- The per-task match test of `updateFilter`: case-insensitive substring of
the concatenated haystack. -/
def matchesQuery (q : String) (t : Task) : Bool :=
  containsChars (goToLower (haystack t)).toList (goToLower q).toList

/-- The filter loop of `updateFilter` for a non-empty query. -/
def filterTasks (base : List Task) (q : String) : List Task :=
  base.filter (fun t => matchesQuery q t)

/-- The browser state, mirroring `app.TaskModel` field for field (presentation
styles, the project name/root strings and timer state are dropped; the
textinput is its value split at the cursor; `measuredItemHeight` stands for the
lipgloss measurement `measureItemHeight` would return). -/
structure TaskModel where
  tasks : List Task
  originalTasks : List Task
  filteredTasks : List Task
  selected : Int
  searchMode : Bool
  searchQuery : String
  searchBefore : String
  searchAfter : String
  mouseEnabled : Bool
  width : Int
  height : Int
  lastCommand : String
  statusMessage : String
  errorMessage : String
  quitAfterSelect : Bool
  tabOffset : Int
  headerIndent : Int
  listOffset : Int
  itemHeight : Int
  measuredItemHeight : Int
  tabs : List String
  activeTab : String
  tabTasks : List (String × List Task)
  sortMode : String
deriving DecidableEq, Repr

/-- The cached-or-measured item height used by `visibleListHeight` (with the
`<= 0 -> 7` fallback). -/
def effItemHeight (m : TaskModel) : Int :=
  if m.itemHeight = 0 then
    (if m.measuredItemHeight ≤ 0 then 7 else m.measuredItemHeight)
  else m.itemHeight

/-- The caching side effect of `visibleListHeight` on `m.itemHeight`. -/
def cacheItemHeight (m : TaskModel) : TaskModel :=
  { m with itemHeight := effItemHeight m }

/-- `TaskModel.visibleListHeight` as a pure function of the state: subtract the
container overhead and chrome rows (tabs strip only with more than one tab, the
search box only when searching or a query is shown) and divide by the item height. -/
def visibleListHeightPure (m : TaskModel) : Int :=
  let ih := effItemHeight m
  let avail := if m.height ≤ 0 then 24 else m.height
  let inner := avail - 4
  let inner := if inner < 10 then 10 else inner
  let overhead : Int := 2 + 1 + 3
  let overhead := if 1 < m.tabs.length then overhead + 3 else overhead
  let overhead := if m.searchMode || m.searchQuery ≠ "" then overhead + 3 else overhead
  let remaining := inner - overhead
  if remaining < ih then 1
  else
    let items := remaining / ih
    if items < 1 then 1 else items

/-- `TaskModel.ensureSelectionVisible`: follow the selection with the window,
then clamp the offset into `[0, max 0 (len - height)]`. -/
def ensureSelectionVisible (m : TaskModel) : TaskModel :=
  let m := cacheItemHeight m
  let h := visibleListHeightPure m
  let off := if m.selected < m.listOffset then m.selected else m.listOffset
  let off := if off + h ≤ m.selected then m.selected - h + 1 else off
  let maxOff := max 0 ((m.filteredTasks.length : Int) - h)
  let off := if maxOff < off then maxOff else off
  let off := if off < 0 then 0 else off
  { m with listOffset := off }

/-- `TaskModel.updateFilter`: global search over all tasks when a query is
active, the active tab's members otherwise; then the top-end selection clamp
and the viewport re-clamp. -/
def updateFilter (m : TaskModel) : TaskModel :=
  let baseTasks := if m.searchQuery ≠ "" then m.tasks else lookupTab m.tabTasks m.activeTab
  let filtered := if m.searchQuery = "" then baseTasks else filterTasks baseTasks m.searchQuery
  let sel := if (filtered.length : Int) ≤ m.selected then max 0 ((filtered.length : Int) - 1)
             else m.selected
  ensureSelectionVisible { m with filteredTasks := filtered, selected := sel }

/-- `TaskModel.buildTabs`: recompute tabs and the partition from
`m.originalTasks` (NOT from `m.tasks`), then revalidate the active tab. -/
def buildTabs (m : TaskModel) : TaskModel :=
  let labels := tabsOf m.sortMode m.originalTasks
  let groups := groupsOf m.sortMode m.originalTasks
  let active := if labels.contains m.activeTab then m.activeTab
    else match labels with
      | [] => m.activeTab
      | l :: _ => l
  { m with tabs := labels, tabTasks := groups, activeTab := active }

/-- `TaskModel.setStatus` (the 3-second timeout is presentation-side timer state). -/
def setStatus (m : TaskModel) (msg : String) : TaskModel :=
  { m with statusMessage := msg }

/-- Safe read of `l[i]` for a Go `int` index: `none` is an index-out-of-range panic. -/
def taskAt? (l : List Task) (i : Int) : Option Task :=
  if 0 ≤ i ∧ i < (l.length : Int) then l.get? i.toNat else none

/-- `TaskModel.markForExecution`: a no-op on an empty list, otherwise record the
selected task's name and quit; indexes `filteredTasks[selected]` unguarded, so
an out-of-range selection is a panic (`none`). -/
def markForExecution (m : TaskModel) : Option TaskModel :=
  if m.filteredTasks.length = 0 then some m
  else
    match taskAt? m.filteredTasks m.selected with
    | some t => some { m with lastCommand := t.name, quitAfterSelect := true }
    | none => none

/-- The navigation "up"/"k" branch of `handleKeys` (both modes). -/
def navUp (m : TaskModel) : TaskModel :=
  if 0 < m.selected then ensureSelectionVisible { m with selected := m.selected - 1 } else m

/-- The navigation "down"/"j" branch of `handleKeys` (both modes). -/
def navDown (m : TaskModel) : TaskModel :=
  if m.selected < (m.filteredTasks.length : Int) - 1 then
    ensureSelectionVisible { m with selected := m.selected + 1 }
  else m

/-- The "pgup" branch: jump a window upward, floored at 0. -/
def navPgUp (m : TaskModel) : TaskModel :=
  let m := cacheItemHeight m
  let step := visibleListHeightPure m
  ensureSelectionVisible { m with selected := max 0 (m.selected - step) }

/-- The "pgdown" branch: jump a window downward, capped at `len - 1`. -/
def navPgDown (m : TaskModel) : TaskModel :=
  let m := cacheItemHeight m
  let step := visibleListHeightPure m
  ensureSelectionVisible { m with selected := min ((m.filteredTasks.length : Int) - 1) (m.selected + step) }

/-- The "home" branch: selection to 0, unconditionally. -/
def navHome (m : TaskModel) : TaskModel :=
  ensureSelectionVisible { m with selected := 0 }

/-- The "end" branch: selection to `len - 1`, unconditionally (on an empty list
this is -1). -/
def navEnd (m : TaskModel) : TaskModel :=
  ensureSelectionVisible { m with selected := (m.filteredTasks.length : Int) - 1 }

/-- `TaskModel.titleCase` (ASCII: uppercase head, lowercase tail). -/
def titleCase (s : String) : String :=
  if s.length = 0 then s
  else
    match s.toList with
    | [] => s
    | c :: cs => String.mk (c.toUpper :: cs.map Char.toLower)

/-- Rendered name of a tab in width computations (`"main"` renders as `"Main"`). -/
def tabDisplay (tab : String) : String :=
  if tab = "main" then "Main" else titleCase tab

/-- The leading-tabs-that-fit count of `ensureTabVisible` (each tab costs its
rendered name length plus 8). -/
def countFit (tabs : List String) (avail cur : Int) : Nat :=
  match tabs with
  | [] => 0
  | tab :: rest =>
    let w := ((tabDisplay tab).utf8ByteSize : Int) + 8
    if avail < cur + w then 0 else 1 + countFit rest avail (cur + w)

/-- `TaskModel.ensureTabVisible`: window-follow and clamp for the horizontal
tab strip offset. -/
def ensureTabVisible (m : TaskModel) (tabIndex : Int) : TaskModel :=
  if m.tabs.length ≤ 1 then m
  else
    let availableWidth := if m.width - 14 < 20 then 20 else m.width - 14
    let visibleCount : Int := (countFit m.tabs availableWidth 0 : Int)
    let visibleCount := if visibleCount = 0 then 1 else visibleCount
    let off := if tabIndex < m.tabOffset then tabIndex
      else if m.tabOffset + visibleCount ≤ tabIndex then tabIndex - visibleCount + 1
      else m.tabOffset
    let maxOff := max 0 ((m.tabs.length : Int) - visibleCount)
    let off := if maxOff < off then maxOff else off
    let off := if off < 0 then 0 else off
    { m with tabOffset := off }

/-- First index of the active tab in `m.tabs`, -1 when absent (the scan loops
in `moveToNextTab`/`moveToPrevTab`). -/
def findTabIdx (tabs : List String) (active : String) : Int :=
  match tabs.findIdx? (fun tab => tab == active) with
  | some i => (i : Int)
  | none => -1

/-- Read `m.tabs[i]` (callers guard the range). -/
def tabGet (tabs : List String) (i : Int) : String := tabs.getD i.toNat ""

/-- `TaskModel.moveToNextTab`: advance without wrap-around, keep the tab
visible, and always re-run the filter. -/
def moveToNextTab (m : TaskModel) : TaskModel :=
  if m.tabs.length ≤ 1 then m
  else
    let ci := findTabIdx m.tabs m.activeTab
    let m :=
      if 0 ≤ ci ∧ ci < (m.tabs.length : Int) - 1 then
        ensureTabVisible { m with activeTab := tabGet m.tabs (ci + 1) } (ci + 1)
      else m
    updateFilter m

/-- `TaskModel.moveToPrevTab`: the mirror of `moveToNextTab`. -/
def moveToPrevTab (m : TaskModel) : TaskModel :=
  if m.tabs.length ≤ 1 then m
  else
    let ci := findTabIdx m.tabs m.activeTab
    let m :=
      if 0 ≤ ci ∧ 0 < ci then
        ensureTabVisible { m with activeTab := tabGet m.tabs (ci - 1) } (ci - 1)
      else m
    updateFilter m

/-- `TaskModel.toggleSortMode`: flip the policy, rebuild tabs and filter, then
try to restore the selection by task name, else keep the clamped index. -/
def toggleSortMode (m : TaskModel) : TaskModel :=
  let selName :=
    if 0 < m.filteredTasks.length ∧ 0 ≤ m.selected ∧ m.selected < (m.filteredTasks.length : Int) then
      ((taskAt? m.filteredTasks m.selected).getD default).name
    else ""
  let m := { m with sortMode := if m.sortMode = "file" then "alpha" else "file" }
  let m := updateFilter (buildTabs m)
  let m :=
    if selName ≠ "" then
      match m.filteredTasks.findIdx? (fun t => t.name == selName) with
      | some i => { m with selected := (i : Int) }
      | none => m
    else m
  ensureSelectionVisible m

/-- The text-to-search seed of `handleKeys`: enter search mode with the typed
character as the whole query (`SetValue` puts the cursor at the end). -/
def autoSearch (m : TaskModel) (c : Char) : TaskModel :=
  let m := { m with searchMode := true, searchBefore := String.singleton c, searchAfter := "" }
  let m := { m with searchQuery := m.searchBefore ++ m.searchAfter }
  updateFilter m

/-- Insert a typed character at the textinput cursor, honouring the 128-rune
`CharLimit` set in `NewTaskModel`. -/
def inputInsert (m : TaskModel) (c : Char) : TaskModel :=
  if 128 ≤ (m.searchBefore ++ m.searchAfter).length then m
  else { m with searchBefore := m.searchBefore.push c }

/-- Delete the character before the textinput cursor. -/
def inputBackspace (m : TaskModel) : TaskModel :=
  { m with searchBefore := strDropLast m.searchBefore }

/-- Move the textinput cursor left. -/
def inputLeft (m : TaskModel) : TaskModel :=
  if m.searchBefore = "" then m
  else { m with searchBefore := strDropLast m.searchBefore,
                searchAfter := strLastChar m.searchBefore ++ m.searchAfter }

/-- Move the textinput cursor right. -/
def inputRight (m : TaskModel) : TaskModel :=
  if m.searchAfter = "" then m
  else { m with searchBefore := m.searchBefore ++ strFirstChar m.searchAfter,
                searchAfter := strDropFirst m.searchAfter }

/-- Key events as `handleKeys` dispatches on `msg.String()` / `msg.Runes`. -/
inductive Key where
  | up
  | down
  | pgup
  | pgdown
  | home
  | endKey
  | enter
  | esc
  | tabKey
  | shiftTab
  | left
  | right
  | backspace
  | ctrlS
  | ctrlC
  | ctrlR
  | char (c : Char)
deriving DecidableEq, Repr

/-- After a search-mode key reached the textinput, `handleKeys` copies the
input value into `searchQuery` and re-filters. -/
def syncQueryAndFilter (m : TaskModel) : TaskModel :=
  updateFilter { m with searchQuery := m.searchBefore ++ m.searchAfter }

/-- The search-mode half of `TaskModel.handleKeys`: navigation keys (including
`j`/`k`) are intercepted; everything else is textinput editing followed by the
`esc` (clear and leave search) and `enter` (leave search and commit) checks. -/
def handleKeySearch (m : TaskModel) (k : Key) : Option TaskModel :=
  match k with
  | .up => some (navUp m)
  | .down => some (navDown m)
  | .pgup => some (navPgUp m)
  | .pgdown => some (navPgDown m)
  | .home => some (navHome m)
  | .endKey => some (navEnd m)
  | .char c =>
    if c = 'k' then some (navUp m)
    else if c = 'j' then some (navDown m)
    else some (syncQueryAndFilter (inputInsert m c))
  | .backspace => some (syncQueryAndFilter (inputBackspace m))
  | .left => some (syncQueryAndFilter (inputLeft m))
  | .right => some (syncQueryAndFilter (inputRight m))
  | .esc =>
    let m := syncQueryAndFilter m
    let m := { m with searchMode := false, searchBefore := "", searchAfter := "", searchQuery := "" }
    some (updateFilter m)
  | .enter =>
    let m := syncQueryAndFilter m
    let m := { m with searchMode := false }
    if 0 < m.filteredTasks.length then markForExecution m else some m
  | _ => some (syncQueryAndFilter m)

/-- The browsing-mode half of `TaskModel.handleKeys`: the type-to-search
auto-trigger for printable, non-space, non-reserved runes, then the key switch
(quit leaves the state unchanged here; the refresh keys only post the status,
the completion arriving later as a `refreshMsg`). -/
def handleKeyBrowse (m : TaskModel) (k : Key) : Option TaskModel :=
  match k with
  | .char c =>
    if c ≠ 'q' ∧ c ≠ 'j' ∧ c ≠ 'k' ∧ c ≠ 'r' ∧ goIsPrint c = true ∧ goIsSpace c = false then
      some (autoSearch m c)
    else if c = 'q' then some m
    else if c = 'r' then some (setStatus m ("Refreshing tasks..."))
    else if c = 'k' then some (navUp m)
    else if c = 'j' then some (navDown m)
    else some m
  | .ctrlS =>
    let m := toggleSortMode m
    some (setStatus m ("Sorted by " ++ m.sortMode))
  | .ctrlC => some m
  | .ctrlR => some (setStatus m ("Refreshing tasks..."))
  | .up => some (navUp m)
  | .down => some (navDown m)
  | .pgup => some (navPgUp m)
  | .pgdown => some (navPgDown m)
  | .home => some (navHome m)
  | .endKey => some (navEnd m)
  | .enter => markForExecution m
  | .esc =>
    if m.searchQuery ≠ "" then some (updateFilter { m with searchQuery := "" })
    else some m
  | .tabKey => some (if 1 < m.tabs.length then moveToNextTab m else m)
  | .right => some (if 1 < m.tabs.length then moveToNextTab m else m)
  | .shiftTab => some (if 1 < m.tabs.length then moveToPrevTab m else m)
  | .left => some (if 1 < m.tabs.length then moveToPrevTab m else m)
  | .backspace => some m

/-- `TaskModel.handleKeys`. -/
def handleKeys (m : TaskModel) (k : Key) : Option TaskModel :=
  if m.searchMode then handleKeySearch m k else handleKeyBrowse m k

/-- Mouse events dispatched in `handleMouse`: a left press, or a press-drag
(`MouseLeft | MouseMotion`). -/
inductive MouseEvt where
  | press (x y : Int)
  | drag (x y : Int)
deriving DecidableEq, Repr

/-- `TaskModel.getTabIndexAtX` (scan from `tabOffset`, 8 columns of chrome per tab). -/
def tabHitScan (tabs : List String) (i : Nat) (pos x : Int) : Int :=
  match tabs with
  | [] => -1
  | tab :: rest =>
    let w := (tab.utf8ByteSize : Int) + 8
    if pos ≤ x ∧ x < pos + w then (i : Int)
    else tabHitScan rest (i + 1) (pos + w) x

/-- `TaskModel.getTabIndexAtX`. -/
def getTabIndexAtX (m : TaskModel) (x : Int) : Int :=
  if m.tabs.length ≤ 1 then -1
  else tabHitScan (m.tabs.drop m.tabOffset.toNat) m.tabOffset.toNat (2 + m.headerIndent) x

/-- The screen-row to list-index translation of `handleMouse` (4 rows of chrome,
one more when the search box is shown). -/
def mouseAdjustY (m : TaskModel) (y : Int) : Int :=
  let a := y - 4
  if m.searchMode || m.searchQuery ≠ "" then a - 1 else a

/-- `TaskModel.handleMouse`: a press on the tab row switches tabs and
re-filters; a press in the list area sets the selection WITHOUT re-clamping the
scroll offset; a drag landing on the already-selected row commits. -/
def handleMouse (m : TaskModel) (e : MouseEvt) : Option TaskModel :=
  match e with
  | .press x y =>
    if y = 2 ∧ 1 < m.tabs.length then
      let ti := getTabIndexAtX m x
      if 0 ≤ ti ∧ ti < (m.tabs.length : Int) then
        some (updateFilter { m with activeTab := tabGet m.tabs ti })
      else some m
    else if 4 ≤ y then
      let a := mouseAdjustY m y
      if 0 ≤ a ∧ a < (m.filteredTasks.length : Int) then some { m with selected := a }
      else some m
    else some m
  | .drag _ y =>
    if 4 ≤ y then
      let a := mouseAdjustY m y
      if 0 ≤ a ∧ a < (m.filteredTasks.length : Int) ∧ a = m.selected then markForExecution m
      else some m
    else some m

/-- The messages `TaskModel.Update` dispatches on.  `refreshed` is the
`refreshMsg` the asynchronous `refreshCmd` posts back with the result of
re-running `DiscoverTasks`. -/
inductive Msg where
  | windowSize (w h : Int)
  | key (k : Key)
  | mouse (e : MouseEvt)
  | tick
  | refreshed (res : Except String (List Task))
deriving Repr

/-- `TaskModel.Update`.  A failed refresh only posts a status; a successful one
replaces `m.tasks` and calls `buildTabs` (which reads the stale
`m.originalTasks`) and `updateFilter`, then posts the count notice. -/
def Update (m : TaskModel) (msg : Msg) : Option TaskModel :=
  match msg with
  | .windowSize w h => some (ensureSelectionVisible { m with width := w, height := h })
  | .key k => handleKeys m k
  | .mouse e => if m.mouseEnabled = false then some m else handleMouse m e
  | .tick => some m
  | .refreshed res =>
    match res with
    | .error e => some (setStatus m ("Refresh failed: " ++ e))
    | .ok ts =>
      let m := { m with tasks := ts }
      let m := buildTabs m
      let m := updateFilter m
      some (setStatus m ("Refreshed - " ++ toString ts.length ++ " tasks found"))

/-- `app.NewTaskModel` (theme and project strings dropped): stable-sort the
tasks by line, copy them as `originalTasks`, build tabs and apply the initial
filter.  `measuredItemHeight` stands for the lipgloss row measurement. -/
def NewTaskModel (tasks : List Task) (mouseEnabled : Bool) (measuredItemHeight : Int) : TaskModel :=
  let sorted := stableSort lineLt tasks
  let m : TaskModel :=
    { tasks := sorted
      originalTasks := sorted
      filteredTasks := sorted
      selected := 0
      searchMode := false
      searchQuery := ""
      searchBefore := ""
      searchAfter := ""
      mouseEnabled := mouseEnabled
      width := 0
      height := 0
      lastCommand := ""
      statusMessage := ""
      errorMessage := ""
      quitAfterSelect := false
      tabOffset := 0
      headerIndent := 0
      listOffset := 0
      itemHeight := 0
      measuredItemHeight := measuredItemHeight
      tabs := []
      activeTab := ""
      tabTasks := []
      sortMode := "file" }
  updateFilter (buildTabs m)

/-- Run a sequence of events through `Update`, stopping at a panic. -/
def steps (m : TaskModel) (msgs : List Msg) : Option TaskModel :=
  msgs.foldl (fun acc msg => acc.bind (fun m => Update m msg)) (some m)

/-- The spec's selection invariant: a non-empty visible list has
`0 <= selectedIndex < len(visibleTasks)`. -/
def selectionIndexInv (m : TaskModel) : Bool :=
  m.filteredTasks.isEmpty || decide (0 ≤ m.selected ∧ m.selected < (m.filteredTasks.length : Int))

/-- The spec's "selection stays visible" invariant:
`scrollOffset <= selectedIndex <= scrollOffset + visibleRowCount - 1` and a
non-negative offset. -/
def selectionVisibleInv (m : TaskModel) : Bool :=
  decide (m.listOffset ≤ m.selected ∧
    m.selected ≤ m.listOffset + visibleListHeightPure m - 1 ∧ 0 ≤ m.listOffset)

/-! ### Concrete states used by the claim theorems -/

/-- A task named `old`, present at startup. -/
def oldTask : Task := { name := "old", desc := "", cmds := [], line := 1 }

/-- A task named `new`, discovered by a refresh. -/
def newTask : Task := { name := "new", desc := "", cmds := [], line := 1 }

/-- A browser started on the single task `old`. -/
def startOldModel : TaskModel := NewTaskModel [oldTask] true 1

/-- A task named `aa`. -/
def aaTask : Task := { name := "aa", desc := "", cmds := [], line := 1 }

/-- A browser started on the single task `aa`. -/
def browseModel : TaskModel := NewTaskModel [aaTask] true 1

/-- A task whose name has the `db` prefix, declared first. -/
def dbTask : Task := { name := "db-x", desc := "", cmds := [], line := 1 }

/-- An unprefixed (`main`-tab) task, declared second. -/
def buildTask : Task := { name := "build", desc := "", cmds := [], line := 2 }

/-- Twelve identical single-line tasks, more than fit in one window. -/
def dozenTasks : List Task :=
  (List.range 12).map (fun i => { name := "t", desc := "", cmds := [], line := (i : Int) })

/-- A scrolled-down browser: twelve visible tasks, ten rows per window
(height 20, item height 1), selection on the last task, offset 2. -/
def scrolledModel : TaskModel :=
  { tasks := dozenTasks, originalTasks := dozenTasks, filteredTasks := dozenTasks,
    selected := 11, searchMode := false, searchQuery := "", searchBefore := "", searchAfter := "",
    mouseEnabled := true, width := 80, height := 20, lastCommand := "", statusMessage := "",
    errorMessage := "", quitAfterSelect := false, tabOffset := 0, headerIndent := 0,
    listOffset := 2, itemHeight := 1, measuredItemHeight := 1, tabs := ["main"],
    activeTab := "main", tabTasks := [("main", dozenTasks)], sortMode := "file" }

/-- A task whose name alone is `a` with description `b`. -/
def abTask : Task := { name := "a", desc := "b", cmds := [], line := 0 }

/-- The claim's reading of a filter match: the query occurs (case-insensitively)
in the name, or in the description, or in the flattened commands — each field
tested on its own. -/
def fieldwiseMatch (q : String) (t : Task) : Bool :=
  containsChars (goToLower t.name).toList (goToLower q).toList ||
  containsChars (goToLower t.desc).toList (goToLower q).toList ||
  containsChars (goToLower (String.intercalate " " t.cmds)).toList (goToLower q).toList

/-! ### Frame lemmas: which fields the re-clamp and filter steps leave alone -/

@[simp]
theorem ensureSelectionVisible_filteredTasks (m : TaskModel) :
    (ensureSelectionVisible m).filteredTasks = m.filteredTasks := rfl

@[simp]
theorem ensureSelectionVisible_selected (m : TaskModel) :
    (ensureSelectionVisible m).selected = m.selected := rfl

@[simp]
theorem ensureSelectionVisible_searchMode (m : TaskModel) :
    (ensureSelectionVisible m).searchMode = m.searchMode := rfl

@[simp]
theorem ensureSelectionVisible_searchQuery (m : TaskModel) :
    (ensureSelectionVisible m).searchQuery = m.searchQuery := rfl

@[simp]
theorem ensureSelectionVisible_tasks (m : TaskModel) :
    (ensureSelectionVisible m).tasks = m.tasks := rfl

@[simp]
theorem updateFilter_searchMode (m : TaskModel) :
    (updateFilter m).searchMode = m.searchMode := rfl

@[simp]
theorem updateFilter_searchQuery (m : TaskModel) :
    (updateFilter m).searchQuery = m.searchQuery := rfl

@[simp]
theorem updateFilter_tasks (m : TaskModel) :
    (updateFilter m).tasks = m.tasks := rfl

@[simp]
theorem buildTabs_tasks (m : TaskModel) :
    (buildTabs m).tasks = m.tasks := rfl

/-- With a non-empty query the filtered view is computed by `filterTasks` over
the FULL task set (the global-search branch of `updateFilter`). -/
theorem updateFilter_filteredTasks_of_query (m : TaskModel) (h : m.searchQuery ≠ "") :
    (updateFilter m).filteredTasks = filterTasks m.tasks m.searchQuery := by
  simp [updateFilter, h]

/-! ### Claim theorems -/

/-- Claim C1 (code bug): after a successful refresh the task set is replaced,
but `buildTabs` reads the stale `originalTasks` captured at startup, so the tab
partition and the tab-scoped visible list still show the startup task `old`
while `m.tasks` holds the new task — the tab groups and visible list are NOT a
function of the newly discovered tasks.  Only the status notice reports the new
count. -/
theorem refresh_rebuilds_tabs_from_stale_startup_tasks :
    (Update startOldModel (Msg.refreshed (.ok [newTask]))).map
        (fun m => (m.tasks, m.filteredTasks, lookupTab m.tabTasks m.activeTab, m.statusMessage))
      = some ([newTask], [oldTask], [oldTask], "Refreshed - 1 tasks found") := by
  rfl

/-- Claim C2 (code bug): the event sequence "type `z` (enter search, zero
matches), press `end` (selection becomes -1 with no lower clamp), press
backspace (query cleared, the one task is visible again)" leaves
`selectedIndex = -1` with a non-empty visible list, violating the selection
invariant; pressing `enter` then indexes `filteredTasks[-1]`, a panic. -/
theorem end_on_empty_list_leaves_negative_selection :
    (steps browseModel [.key (.char 'z'), .key .endKey, .key .backspace]).map
        (fun m => (m.filteredTasks.length, m.selected, selectionIndexInv m)) = some (1, -1, false)
    ∧ steps browseModel [.key (.char 'z'), .key .endKey, .key .backspace, .key .enter] = none := by
  constructor
  · rfl
  · rfl

/-- Claim C6 (code bug): a mouse press in the list area sets the selection from
the screen row without re-clamping the scroll offset, so a state that satisfied
the "selection stays visible" invariant (offset 2, selection 11, ten rows)
violates it after the press (selection 0, offset still 2). -/
theorem mouse_press_breaks_selection_visible_invariant :
    selectionVisibleInv scrolledModel = true ∧
    (Update scrolledModel (.mouse (.press 0 4))).map
        (fun m => (m.selected, m.listOffset, selectionVisibleInv m)) = some (0, 2, false) := by
  constructor
  · rfl
  · rfl

/-- Claim C3, counterexample: the filter matches against the concatenation
`name ++ " " ++ desc ++ " " ++ commands`, so the query `"a b"` returns the task
named `a` described `b` although neither its name, nor its description, nor its
(empty) flattened commands contains the query. -/
theorem filter_match_spans_field_boundaries :
    filterTasks [abTask] "a b" = [abTask] ∧ fieldwiseMatch "a b" abTask = false := by
  constructor
  · rfl
  · rfl

/-- Claim C5, counterexample: with declaration order `db-x` (line 1) then
`build` (line 2), `buildTabs` hoists the `main` tab in front of the first-seen
`db` tab even under the declaration-order policy, so flattening the partition
yields `build, db-x`, not the original sequence. -/
theorem partition_roundtrip_fails_on_main_hoist :
    flattenDecl [dbTask, buildTask] = [buildTask, dbTask] ∧
    flattenDecl [dbTask, buildTask] ≠ [dbTask, buildTask] := by
  refine ⟨by rfl, ?_⟩
  intro h
  have h2 : ([buildTask, dbTask] : List Task) = [dbTask, buildTask] := by
    calc ([buildTask, dbTask] : List Task) = flattenDecl [dbTask, buildTask] := by rfl
    _ = [dbTask, buildTask] := h
  exact (by decide : ([buildTask, dbTask] : List Task) ≠ [dbTask, buildTask]) h2

/-- Claim C9, counterexample: the ASCII space is printable (Go `unicode.IsPrint`
includes the space) and is not a reserved binding, yet typing it while browsing
does NOT enter search mode — the auto-trigger also requires `!unicode.IsSpace`. -/
theorem space_does_not_trigger_search :
    goIsPrint ' ' = true ∧
    (' ' ≠ 'q' ∧ ' ' ≠ 'j' ∧ ' ' ≠ 'k' ∧ ' ' ≠ 'r') ∧
    browseModel.searchMode = false ∧
    (Update browseModel (.key (.char ' '))).map (fun m => m.searchMode) = some false := by
  refine ⟨by decide, by decide, by rfl, by rfl⟩

/-- Claim C3 (amended): for a non-empty query the visible list is an
order-preserving subsequence of the FULL discovered task set (global search),
and every returned task matches the query case-insensitively against the
concatenated haystack of name, description and space-joined commands. -/
theorem filter_global_ordered_haystack_match (m : TaskModel) (h : m.searchQuery ≠ "") :
    (updateFilter m).filteredTasks = filterTasks m.tasks m.searchQuery ∧
    (updateFilter m).filteredTasks.Sublist m.tasks ∧
    ∀ t ∈ (updateFilter m).filteredTasks, matchesQuery m.searchQuery t = true := by
  have e1 := updateFilter_filteredTasks_of_query m h
  refine ⟨e1, ?_, ?_⟩
  · rw [e1]
    exact List.filter_sublist m.tasks
  · intro t ht
    rw [e1] at ht
    exact List.of_mem_filter ht

/-- A browser searching for `pass` over the spec's scenario tasks `test-pass`
and `lint`. -/
def passQueryModel : TaskModel :=
  { tasks := [{ name := "test-pass", desc := "", cmds := [], line := 1 },
              { name := "lint", desc := "lints code", cmds := [], line := 2 }],
    originalTasks := [{ name := "test-pass", desc := "", cmds := [], line := 1 },
                      { name := "lint", desc := "lints code", cmds := [], line := 2 }],
    filteredTasks := [], selected := 0, searchMode := true, searchQuery := "pass",
    searchBefore := "pass", searchAfter := "", mouseEnabled := true, width := 80, height := 24,
    lastCommand := "", statusMessage := "", errorMessage := "", quitAfterSelect := false,
    tabOffset := 0, headerIndent := 0, listOffset := 0, itemHeight := 1, measuredItemHeight := 1,
    tabs := ["main"], activeTab := "main", sortMode := "file",
    tabTasks := [("main", [{ name := "test-pass", desc := "", cmds := [], line := 1 },
                           { name := "lint", desc := "lints code", cmds := [], line := 2 }])] }

/-- Witness for the amended C3 theorem at the query `pass`: the filtered view
is the haystack filter over the full set (which here is exactly `[test-pass]`),
an order-preserving sublist, with every member matching. -/
theorem filter_global_ordered_haystack_match_witness :
    ((updateFilter passQueryModel).filteredTasks
        = filterTasks passQueryModel.tasks passQueryModel.searchQuery ∧
      (updateFilter passQueryModel).filteredTasks.Sublist passQueryModel.tasks ∧
      ∀ t ∈ (updateFilter passQueryModel).filteredTasks,
        matchesQuery passQueryModel.searchQuery t = true) ∧
    (updateFilter passQueryModel).filteredTasks
      = [{ name := "test-pass", desc := "", cmds := [], line := 1 }] := by
  refine ⟨filter_global_ordered_haystack_match passQueryModel (by decide), by rfl⟩

/-- Claim C9 (amended): any printable, NON-SPACE character that is not one of
the reserved bindings `q`, `j`, `k`, `r`, typed while browsing, enters search
mode with the query seeded to exactly that character.  (The unamended claim
fails for the space character, which Go counts as printable.) -/
theorem printable_nonreserved_char_enters_search (m : TaskModel) (c : Char)
    (hb : m.searchMode = false) (hq : c ≠ 'q') (hj : c ≠ 'j') (hk : c ≠ 'k') (hr : c ≠ 'r')
    (hp : goIsPrint c = true) (hs : goIsSpace c = false) :
    (Update m (.key (.char c))).map (fun x => x.searchMode) = some true ∧
    (Update m (.key (.char c))).map (fun x => x.searchQuery) = some (String.singleton c) := by
  have hcond : c ≠ 'q' ∧ c ≠ 'j' ∧ c ≠ 'k' ∧ c ≠ 'r' ∧ goIsPrint c = true ∧ goIsSpace c = false :=
    ⟨hq, hj, hk, hr, hp, hs⟩
  simp [Update, handleKeys, hb, handleKeyBrowse, hcond, autoSearch]

/-- Witness for the amended C9 theorem: typing `x` while browsing the one-task
model enters search mode with query `x`. -/
theorem printable_nonreserved_char_enters_search_witness :
    browseModel.searchMode = false ∧
    (Update browseModel (.key (.char 'x'))).map (fun x => x.searchMode) = some true ∧
    (Update browseModel (.key (.char 'x'))).map (fun x => x.searchQuery)
      = some (String.singleton 'x') := by
  refine ⟨by rfl, ?_⟩
  exact printable_nonreserved_char_enters_search browseModel 'x' (by rfl)
    (by decide) (by decide) (by decide) (by decide) (by decide) (by decide)

/-- Claim C8: a refresh completion carrying an error only posts the transient
notice; the task set, the tab partition, the filtered view, the active tab, the
selection and the scroll offset are all exactly what they were. -/
theorem refresh_error_preserves_state (m : TaskModel) (e : String) :
    (Update m (.refreshed (.error e))).map (fun x => x.tasks) = some m.tasks ∧
    (Update m (.refreshed (.error e))).map (fun x => x.originalTasks) = some m.originalTasks ∧
    (Update m (.refreshed (.error e))).map (fun x => x.tabs) = some m.tabs ∧
    (Update m (.refreshed (.error e))).map (fun x => x.tabTasks) = some m.tabTasks ∧
    (Update m (.refreshed (.error e))).map (fun x => x.filteredTasks) = some m.filteredTasks ∧
    (Update m (.refreshed (.error e))).map (fun x => x.activeTab) = some m.activeTab ∧
    (Update m (.refreshed (.error e))).map (fun x => x.selected) = some m.selected ∧
    (Update m (.refreshed (.error e))).map (fun x => x.listOffset) = some m.listOffset ∧
    (Update m (.refreshed (.error e))).map (fun x => x.statusMessage)
      = some ("Refresh failed: " ++ e) := by
  exact ⟨rfl, rfl, rfl, rfl, rfl, rfl, rfl, rfl, rfl⟩

/-- Claim C4: discovery follows strict priority.  (1) A structured (JSON)
listing success with at least one task is the primary listing, enriched from
the direct parse only — the result is independent of the plain listing.  (2) A
strategy that succeeded with zero tasks (or failed) hands over to the plain
listing.  (3) Then to the direct YAML parse.  (4) When all three are unusable,
discovery fails aggregating the three underlying errors (a zero-task success
contributing a nil error).  (5) When the `task` binary is absent from PATH,
discovery fails with the tool-missing error no matter what any strategy would
have produced. -/
theorem discover_strict_priority :
    (∀ (ts : List Task) (plain yaml : Except String (List Task)), ts ≠ [] →
        DiscoverTasks true (.ok ts) plain yaml = .ok (enrichTaskCmds yaml ts)) ∧
    (∀ (json : Except String (List Task)) (ps : List Task) (yaml : Except String (List Task)),
        stratUsable json = none → ps ≠ [] →
        DiscoverTasks true json (.ok ps) yaml = .ok (enrichTaskCmds yaml ps)) ∧
    (∀ (json plain : Except String (List Task)) (ys : List Task),
        stratUsable json = none → stratUsable plain = none → ys ≠ [] →
        DiscoverTasks true json plain (.ok ys) = .ok ys) ∧
    (∀ (json plain yaml : Except String (List Task)),
        stratUsable json = none → stratUsable plain = none → stratUsable yaml = none →
        DiscoverTasks true json plain yaml
          = .error (.discoveryFailed (stratErr json) (stratErr plain) (stratErr yaml))) ∧
    (∀ (json plain yaml : Except String (List Task)),
        DiscoverTasks false json plain yaml = .error .toolMissing) := by
  refine ⟨?_, ?_, ?_, ?_, ?_⟩
  · intro ts plain yaml h
    simp [DiscoverTasks, stratUsable, h]
  · intro json ps yaml hj hp
    simp only [DiscoverTasks, hj]
    simp [stratUsable, hp]
  · intro json plain ys hj hp hy
    simp only [DiscoverTasks, hj, hp]
    simp [stratUsable, hy]
  · intro json plain yaml hj hp hy
    simp only [DiscoverTasks, hj, hp, hy]
    simp
  · intro json plain yaml
    simp [DiscoverTasks]

/-- Witness for C4, one concrete instantiation per conjunct: a usable JSON
listing wins (regardless of a failed plain listing), a zero-task JSON success
falls through to the plain listing, then to the YAML parse; total failure
aggregates `(nil, "p", nil)`; and a missing binary short-circuits everything. -/
theorem discover_strict_priority_witness :
    DiscoverTasks true (.ok [aaTask]) (.error ("p")) (.error ("y"))
      = .ok (enrichTaskCmds (.error ("y")) [aaTask]) ∧
    DiscoverTasks true (.ok []) (.ok [aaTask]) (.error ("y"))
      = .ok (enrichTaskCmds (.error ("y")) [aaTask]) ∧
    DiscoverTasks true (.error ("j")) (.ok []) (.ok [aaTask]) = .ok [aaTask] ∧
    DiscoverTasks true (.ok []) (.error ("p")) (.ok [])
      = .error (.discoveryFailed none (some "p") none) ∧
    DiscoverTasks false (.error ("j")) (.ok [aaTask]) (.ok [aaTask])
      = .error .toolMissing := by
  refine ⟨discover_strict_priority.1 [aaTask] _ _ (by decide),
    discover_strict_priority.2.1 (.ok []) [aaTask] _ (by rfl) (by decide),
    discover_strict_priority.2.2.1 (.error ("j")) (.ok []) [aaTask] (by rfl) (by rfl) (by decide),
    discover_strict_priority.2.2.2.1 (.ok []) (.error ("p")) (.ok []) (by rfl) (by rfl) (by rfl),
    discover_strict_priority.2.2.2.2 (.error ("j")) (.ok [aaTask]) (.ok [aaTask])⟩

/-- The plain-line task builder only emits `line = 0` tasks. -/
theorem mkPlainTask_line (nm ds : String) (t : Task) (h : mkPlainTask nm ds = some t) :
    t.line = 0 := by
  unfold mkPlainTask at h
  split at h
  · cases h
  · cases h
    rfl

/-- A task parsed from a plain-listing line always carries `line = 0`. -/
theorem parsePlainLine_line (s : String) (t : Task) (h : parsePlainLine s = some t) :
    t.line = 0 := by
  unfold parsePlainLine at h
  dsimp only at h
  split at h
  · exact mkPlainTask_line _ _ _ h
  · cases h

/-- Every task of a parsed plain listing carries `line = 0`. -/
theorem parsePlainOutput_line (out : String) : ∀ t ∈ parsePlainOutput out, t.line = 0 := by
  unfold parsePlainOutput
  generalize splitOnChar '\n' out = ls
  induction ls with
  | nil => simp
  | cons l ls ih =>
    intro t ht
    simp only [List.foldr_cons] at ht
    cases hpl : parsePlainLine l with
    | none =>
      rw [hpl] at ht
      exact ih t ht
    | some t0 =>
      rw [hpl] at ht
      rcases List.mem_cons.mp ht with h1 | h2
      · rw [h1]
        exact parsePlainLine_line l t0 hpl
      · exact ih t h2

/-- A task built from one YAML `tasks:` entry carries `line = 0` (or was
already accumulated). -/
theorem parseYamlEntry_line (e : String × YVal) (acc : List Task) (t : Task)
    (h : t ∈ parseYamlEntry e acc) : t.line = 0 ∨ t ∈ acc := by
  simp only [parseYamlEntry] at h
  split at h
  · rcases List.mem_cons.mp h with h1 | h2
    · left
      rw [h1]
    · right
      exact h2
  · right
    exact h

/-- Every task accumulated over the YAML `tasks:` entries carries `line = 0`. -/
theorem foldrYamlEntry_line (sec : List (String × YVal)) :
    ∀ t ∈ sec.foldr parseYamlEntry [], t.line = 0 := by
  induction sec with
  | nil => simp
  | cons e es ih =>
    intro t ht
    simp only [List.foldr_cons] at ht
    rcases parseYamlEntry_line e (es.foldr parseYamlEntry []) t ht with h1 | h2
    · exact h1
    · exact ih t h2

/-- Every task of a successful direct YAML parse carries `line = 0`. -/
theorem parseTaskfileYAML_line (doc : YVal) (ts : List Task)
    (h : parseTaskfileYAML doc = .ok ts) : ∀ t ∈ ts, t.line = 0 := by
  unfold parseTaskfileYAML at h
  split at h
  · split at h
    · cases h
      exact foldrYamlEntry_line _
    · cases h
  · cases h

/-- Inserting below elements that never compare strictly smaller lands at the
front (the all-equal-keys case of the stable sort). -/
theorem insertLt_of_all_false {α : Type} (lt : α → α → Bool) (x : α) (l : List α)
    (h : ∀ y ∈ l, lt y x = false) : insertLt lt x l = x :: l := by
  cases l with
  | nil => rfl
  | cons y ys => simp [insertLt, h y (List.mem_cons_self y ys)]

/-- On an all-`line = 0` task list the by-line stable sort is the identity. -/
theorem stableSort_lineLt_id (l : List Task) (h : ∀ t ∈ l, t.line = 0) :
    stableSort lineLt l = l := by
  induction l with
  | nil => rfl
  | cons x xs ih =>
    have hxs : stableSort lineLt xs = xs := ih (fun t ht => h t (List.mem_cons_of_mem x ht))
    show insertLt lineLt x (stableSort lineLt xs) = x :: xs
    rw [hxs]
    apply insertLt_of_all_false
    intro y hy
    simp [lineLt, h y (List.mem_cons_of_mem x hy), h x (List.mem_cons_self x xs)]

/-- Claim C10: every task produced by the plain-text listing parser or by the
direct YAML parse fallback has `line = 0`; consequently the declaration-order
sort is a stable sort over all-equal keys — the identity — so the presented
order of `NewTaskModel` is exactly the parser's emit order (which for the YAML
fallback is the `tasks` map's iteration order, not file declaration order). -/
theorem fallback_parsers_line_zero_stable_order :
    (∀ (out : String) (t : Task), t ∈ parsePlainOutput out → t.line = 0) ∧
    (∀ (doc : YVal) (ts : List Task), parseTaskfileYAML doc = .ok ts → ∀ t ∈ ts, t.line = 0) ∧
    (∀ (l : List Task), (∀ t ∈ l, t.line = 0) → stableSort lineLt l = l) ∧
    (∀ (ts : List Task) (b : Bool) (ih : Int), (∀ t ∈ ts, t.line = 0) →
        (NewTaskModel ts b ih).tasks = ts) := by
  refine ⟨?_, parseTaskfileYAML_line, stableSort_lineLt_id, ?_⟩
  · intro out t ht
    exact parsePlainOutput_line out t ht
  · intro ts b ih h
    unfold NewTaskModel
    simp only [updateFilter_tasks, buildTabs_tasks]
    exact stableSort_lineLt_id ts h

/-- A two-line plain listing sample (`task --list` style). -/
def plainOutSample : String := "* build: Build the project\n* test: Run tests"

/-- Witness for C10: on the sample plain listing the order-preserving facts
hold concretely, and a sample YAML document parses to a `line = 0` task. -/
theorem fallback_parsers_line_zero_stable_order_witness :
    stableSort lineLt (parsePlainOutput plainOutSample) = parsePlainOutput plainOutSample ∧
    (NewTaskModel (parsePlainOutput plainOutSample) true 1).tasks = parsePlainOutput plainOutSample ∧
    ({ name := "build", desc := "Build the project", cmds := [], line := 0 } : Task).line = 0 ∧
    ({ name := "hello", desc := "", cmds := ["echo hi"], line := 0 } : Task).line = 0 := by
  refine ⟨fallback_parsers_line_zero_stable_order.2.2.1 _ (by decide),
    fallback_parsers_line_zero_stable_order.2.2.2 _ true 1 (by decide),
    fallback_parsers_line_zero_stable_order.1 plainOutSample _ (by decide),
    fallback_parsers_line_zero_stable_order.2.1
      (.dict [("tasks", .dict [("hello", .dict [("cmds", .str "echo hi")])])])
      [{ name := "hello", desc := "", cmds := ["echo hi"], line := 0 }] (by rfl) _ (by decide)⟩

/-! ### The tab partition is a permutation (towards the amended C5) -/

/-- Stable insertion permutes: the result holds the new element and the old list. -/
theorem insertLt_perm {α : Type} (lt : α → α → Bool) (x : α) (l : List α) :
    List.Perm (insertLt lt x l) (x :: l) := by
  induction l with
  | nil => exact List.Perm.refl _
  | cons y ys ih =>
    by_cases h : lt y x = true
    · simp only [insertLt, h, if_true]
      exact (ih.cons y).trans (List.Perm.swap x y ys)
    · simp only [insertLt, h, if_false]
      exact List.Perm.refl _

/-- The stable sort is a permutation. -/
theorem stableSort_perm {α : Type} (lt : α → α → Bool) (l : List α) :
    List.Perm (stableSort lt l) l := by
  induction l with
  | nil => exact List.Perm.refl _
  | cons x xs ih =>
    exact (insertLt_perm lt x (stableSort lt xs)).trans (ih.cons x)

/-- The in-tab member sort is a permutation under either policy. -/
theorem sortWithin_perm (sm : String) (l : List Task) :
    List.Perm (sortWithin sm l) l := by
  unfold sortWithin
  split
  · exact stableSort_perm nameLt l
  · exact stableSort_perm lineLt l

/-- A `contains = false` list truly lacks the element. -/
theorem not_mem_of_contains_false {l : List String} {a : String}
    (h : l.contains a = false) : a ∉ l := by
  intro hm
  have h2 : l.contains a = true := List.elem_iff.mpr hm
  rw [h2] at h
  cases h

/-- The first-seen fold only ever appends, so accumulated labels persist. -/
theorem firstSeenLabels_sub (ts : List Task) (acc : List String) (a : String) (ha : a ∈ acc) :
    a ∈ ts.foldl (fun acc t => if acc.contains (taskLabel t) then acc else acc ++ [taskLabel t]) acc := by
  induction ts generalizing acc with
  | nil => exact ha
  | cons t ts ih =>
    simp only [List.foldl_cons]
    apply ih
    by_cases h : acc.contains (taskLabel t) = true
    · rw [if_pos h]
      exact ha
    · rw [if_neg h]
      exact List.mem_append_left _ ha

/-- Every task's label appears in the first-seen fold's result. -/
theorem firstSeenLabels_covers_aux (ts : List Task) (acc : List String) :
    ∀ t ∈ ts, taskLabel t ∈ ts.foldl (fun acc t => if acc.contains (taskLabel t) then acc else acc ++ [taskLabel t]) acc := by
  induction ts generalizing acc with
  | nil => intro t ht; cases ht
  | cons u us ih =>
    intro t ht
    simp only [List.foldl_cons]
    rcases List.mem_cons.mp ht with h1 | h2
    · subst h1
      apply firstSeenLabels_sub
      by_cases h : acc.contains (taskLabel t) = true
      · rw [if_pos h]
        exact List.elem_iff.mp h
      · rw [if_neg h]
        exact List.mem_append_right _ (List.mem_singleton.mpr rfl)
    · exact ih _ t h2

/-- The first-seen fold keeps the label list duplicate-free. -/
theorem firstSeenLabels_nodup_aux (ts : List Task) (acc : List String) (h : acc.Nodup) :
    (ts.foldl (fun acc t => if acc.contains (taskLabel t) then acc else acc ++ [taskLabel t]) acc).Nodup := by
  induction ts generalizing acc with
  | nil => exact h
  | cons t ts ih =>
    simp only [List.foldl_cons]
    apply ih
    by_cases hc : acc.contains (taskLabel t) = true
    · rw [if_pos hc]
      exact h
    · rw [if_neg hc]
      rw [List.nodup_append]
      refine ⟨h, List.nodup_singleton _, ?_⟩
      intro x hx hx2
      rw [List.mem_singleton] at hx2
      subst hx2
      exact not_mem_of_contains_false (eq_false_of_ne_true hc) hx

/-- `firstSeenLabels` covers every task's label. -/
theorem firstSeenLabels_covers (ts : List Task) :
    ∀ t ∈ ts, taskLabel t ∈ firstSeenLabels ts :=
  firstSeenLabels_covers_aux ts []

/-- `firstSeenLabels` is duplicate-free. -/
theorem firstSeenLabels_nodup (ts : List Task) : (firstSeenLabels ts).Nodup :=
  firstSeenLabels_nodup_aux ts [] List.nodup_nil

/-- Moving the first `"main"` to the front is a permutation (auxiliary). -/
theorem firstIdxOfMain_perm (ps : List String) (i : Nat) (h : firstIdxOfMain ps = some i) :
    List.Perm ("main" :: ps.eraseIdx i) ps := by
  induction ps generalizing i with
  | nil => cases h
  | cons p ps ih =>
    unfold firstIdxOfMain at h
    by_cases hp : p = "main"
    · rw [if_pos hp] at h
      cases h
      subst hp
      exact List.Perm.refl _
    · rw [if_neg hp] at h
      cases hj : firstIdxOfMain ps with
      | none => rw [hj] at h; cases h
      | some j =>
        rw [hj] at h
        cases h
        show List.Perm ("main" :: p :: ps.eraseIdx j) (p :: ps)
        exact (List.Perm.swap p "main" (ps.eraseIdx j)).trans ((ih j hj).cons p)

/-- The `"main"` hoist of `buildTabs` permutes the label list. -/
theorem hoistMain_perm (ps : List String) : List.Perm (hoistMain ps) ps := by
  unfold hoistMain
  cases hIdx : firstIdxOfMain ps with
  | none => exact List.Perm.refl _
  | some i =>
    cases i with
    | zero => exact List.Perm.refl _
    | succ j => exact firstIdxOfMain_perm ps (j + 1) hIdx

/-- Filter-partitioning a task list over a duplicate-free covering label list,
sorting each group, and concatenating permutes the original list. -/
theorem join_filter_groups_perm (sm : String) (ps : List String) :
    ∀ (l : List Task), ps.Nodup → (∀ t ∈ l, taskLabel t ∈ ps) →
    List.Perm ((ps.map (fun p => sortWithin sm (l.filter (fun t => taskLabel t == p)))).flatten) l := by
  induction ps with
  | nil =>
    intro l _ hcov
    cases l with
    | nil => exact List.Perm.refl _
    | cons t ts => exact absurd (hcov t (List.mem_cons_self t ts)) (List.not_mem_nil _)
  | cons p ps ih =>
    intro l hnd hcov
    simp only [List.map_cons, List.flatten_cons]
    have hqp : ∀ q ∈ ps, q ≠ p := by
      intro q hq hqe
      subst hqe
      exact (List.nodup_cons.mp hnd).1 hq
    have hrest : ∀ q ∈ ps, l.filter (fun t => taskLabel t == q)
        = (l.filter (fun t => !(taskLabel t == p))).filter (fun t => taskLabel t == q) := by
      intro q hq
      rw [List.filter_filter]
      apply List.filter_congr
      intro t _
      by_cases ht : (taskLabel t == q) = true
      · have : taskLabel t = q := beq_iff_eq.mp ht
        have : (taskLabel t == p) = false := by
          rw [this]
          exact beq_eq_false_iff_ne.mpr (hqp q hq)
        simp [ht, this]
      · simp [eq_false_of_ne_true ht]
    have hmap : ps.map (fun q => sortWithin sm (l.filter (fun t => taskLabel t == q)))
        = ps.map (fun q => sortWithin sm ((l.filter (fun t => !(taskLabel t == p))).filter (fun t => taskLabel t == q))) := by
      apply List.map_congr_left
      intro q hq
      rw [hrest q hq]
    have hcov2 : ∀ t ∈ l.filter (fun t => !(taskLabel t == p)), taskLabel t ∈ ps := by
      intro t ht
      rcases List.mem_filter.mp ht with ⟨htl, htp⟩
      rcases List.mem_cons.mp (hcov t htl) with h1 | h2
      · rw [h1] at htp
        simp at htp
      · exact h2
    have hIH := ih (l.filter (fun t => !(taskLabel t == p))) (List.nodup_cons.mp hnd).2 hcov2
    rw [hmap]
    exact ((sortWithin_perm sm _).append hIH).trans (List.filter_append_perm _ l)

/-- Claim C5 (amended): under the declaration-order policy, flattening all tab
members (tabs in tab order, members in member order) yields a PERMUTATION of
the original declaration-order sequence — every task exactly once; exact
sequence equality fails in general because the `main` tab is hoisted to the
front regardless of policy and tasks of different labels may interleave. -/
theorem partition_flatten_perm (tasks : List Task) :
    List.Perm (flattenDecl tasks) tasks := by
  unfold flattenDecl groupsOf
  rw [List.map_map]
  have hnd : (tabsOf declMode tasks).Nodup := by
    unfold tabsOf declMode
    simp only [if_neg (by decide : ¬ ("file" : String) = "alpha")]
    exact (hoistMain_perm (firstSeenLabels tasks)).symm.nodup (firstSeenLabels_nodup tasks)
  have hcov : ∀ t ∈ tasks, taskLabel t ∈ tabsOf declMode tasks := by
    intro t ht
    unfold tabsOf declMode
    simp only [if_neg (by decide : ¬ ("file" : String) = "alpha")]
    exact (hoistMain_perm (firstSeenLabels tasks)).mem_iff.mpr (firstSeenLabels_covers tasks t ht)
  exact join_filter_groups_perm declMode (tabsOf declMode tasks) tasks hnd hcov

/-! ### Enrichment frame (C7) -/

/-- `modifyIdx` keeps the length. -/
theorem modifyIdx_length (l : List Task) (i : Nat) (f : Task → Task) :
    (modifyIdx l i f).length = l.length := by
  induction l generalizing i with
  | nil => rfl
  | cons t ts ih =>
    cases i with
    | zero => rfl
    | succ j => simp [modifyIdx, ih]

/-- Pointwise reading of `modifyIdx`: only the targeted index changes. -/
theorem get?_modifyIdx (l : List Task) (i j : Nat) (f : Task → Task) :
    (modifyIdx l i f).get? j = if j = i then (l.get? j).map f else l.get? j := by
  induction l generalizing i j with
  | nil =>
    cases hji : decide (j = i) <;> simp_all [modifyIdx]
  | cons t ts ih =>
    cases i with
    | zero =>
      cases j with
      | zero => rfl
      | succ j2 => simp [modifyIdx]
    | succ i2 =>
      cases j with
      | zero => simp [modifyIdx]
      | succ j2 =>
        show (modifyIdx ts i2 f).get? j2
          = if j2 + 1 = i2 + 1 then (ts.get? j2).map f else ts.get? j2
        by_cases hji : j2 = i2
        · rw [if_pos (by omega), ih, if_pos hji]
        · rw [if_neg (by omega), ih, if_neg hji]

/-- The `idx` map points at an element actually named `nm`. -/
theorem lastIdxOf_name (ts : List Task) (nm : String) (i : Nat)
    (h : lastIdxOf ts nm = some i) : (ts.get? i).map Task.name = some nm := by
  induction ts generalizing i with
  | nil => cases h
  | cons t ts ih =>
    unfold lastIdxOf at h
    cases hr : lastIdxOf ts nm with
    | some j =>
      rw [hr] at h
      cases h
      exact ih j hr
    | none =>
      rw [hr] at h
      by_cases ht : t.name = nm
      · rw [if_pos ht] at h
        cases h
        simp [ht]
      · rw [if_neg ht] at h
        cases h

/-- The relation C7 asserts between a listed task and its enriched version:
name and line untouched; commands and description either untouched or filled
from a parsed entry of the SAME name, and only when previously empty. -/
def EnrichRel (ps : List Task) (t0 t : Task) : Prop :=
  t.name = t0.name ∧ t.line = t0.line ∧
  (t.cmds = t0.cmds ∨ (t0.cmds = [] ∧ ∃ p, p ∈ ps ∧ p.name = t0.name ∧ p.cmds ≠ [] ∧ t.cmds = p.cmds)) ∧
  (t.desc = t0.desc ∨ (t0.desc = "" ∧ ∃ p, p ∈ ps ∧ p.name = t0.name ∧ p.desc ≠ "" ∧ t.desc = p.desc))

/-- The enrichment loop invariant: lengths agree and every position relates. -/
def enrichInv (ps ts acc : List Task) : Prop :=
  acc.length = ts.length ∧
  ∀ i t0 t, ts.get? i = some t0 → acc.get? i = some t → EnrichRel ps t0 t

/-- One `enrichStep` against a same-named parsed entry preserves `EnrichRel`. -/
theorem enrichStep_rel (ps : List Task) (p t0 a : Task) (hp : p ∈ ps)
    (hname : t0.name = p.name) (h : EnrichRel ps t0 a) : EnrichRel ps t0 (enrichStep a p) := by
  obtain ⟨hn, hl, hc, hd⟩ := h
  unfold enrichStep
  by_cases h1 : a.cmds = [] ∧ ¬ p.cmds = []
  · rw [if_pos h1]
    have ht0c : t0.cmds = [] := by
      rcases hc with hc1 | hc2
      · rw [← hc1]
        exact h1.1
      · exact hc2.1
    by_cases h2 : a.desc = "" ∧ ¬ p.desc = ""
    · rw [if_pos h2]
      have ht0d : t0.desc = "" := by
        rcases hd with hd1 | hd2
        · rw [← hd1]
          exact h2.1
        · exact hd2.1
      exact ⟨hn, hl, Or.inr ⟨ht0c, p, hp, hname.symm, h1.2, rfl⟩,
        Or.inr ⟨ht0d, p, hp, hname.symm, h2.2, rfl⟩⟩
    · rw [if_neg h2]
      exact ⟨hn, hl, Or.inr ⟨ht0c, p, hp, hname.symm, h1.2, rfl⟩, hd⟩
  · rw [if_neg h1]
    by_cases h2 : a.desc = "" ∧ ¬ p.desc = ""
    · rw [if_pos h2]
      have ht0d : t0.desc = "" := by
        rcases hd with hd1 | hd2
        · rw [← hd1]
          exact h2.1
        · exact hd2.1
      exact ⟨hn, hl, hc, Or.inr ⟨ht0d, p, hp, hname.symm, h2.2, rfl⟩⟩
    · rw [if_neg h2]
      exact ⟨hn, hl, hc, hd⟩

/-- One iteration of the enrichment loop preserves the invariant. -/
theorem enrichInv_step (ps ts acc : List Task) (p : Task) (hp : p ∈ ps)
    (h : enrichInv ps ts acc) :
    enrichInv ps ts
      (match lastIdxOf ts p.name with
       | some i => modifyIdx acc i (fun t => enrichStep t p)
       | none => acc) := by
  cases hL : lastIdxOf ts p.name with
  | none => exact h
  | some i =>
    obtain ⟨hlen, hrel⟩ := h
    refine ⟨by rw [modifyIdx_length]; exact hlen, ?_⟩
    intro j t0 t hj hj2
    rw [get?_modifyIdx] at hj2
    by_cases hji : j = i
    · rw [if_pos hji] at hj2
      cases ha : acc.get? j with
      | none =>
        rw [ha] at hj2
        cases hj2
      | some a =>
        rw [ha] at hj2
        cases hj2
        have hnm : t0.name = p.name := by
          have h2 := lastIdxOf_name ts p.name i hL
          rw [← hji, hj] at h2
          simpa using h2
        exact enrichStep_rel ps p t0 a hp hnm (hrel j t0 a hj ha)
    · rw [if_neg hji] at hj2
      exact hrel j t0 t hj hj2

/-- The whole enrichment fold preserves the invariant. -/
theorem enrichFold_inv (ps ts : List Task) :
    ∀ (rest acc : List Task), (∀ p ∈ rest, p ∈ ps) → enrichInv ps ts acc →
    enrichInv ps ts
      (rest.foldl
        (fun acc p =>
          match lastIdxOf ts p.name with
          | some i => modifyIdx acc i (fun t => enrichStep t p)
          | none => acc) acc) := by
  intro rest
  induction rest with
  | nil => intro acc _ h; exact h
  | cons p ps2 ih =>
    intro acc hsub h
    simp only [List.foldl_cons]
    exact ih _ (fun q hq => hsub q (List.mem_cons_of_mem p hq))
      (enrichInv_step ps ts acc p (hsub p (List.mem_cons_self p ps2)) h)

/-- The enrichment loop establishes the invariant from the listed tasks. -/
theorem enrichGo_inv (ts ps : List Task) : enrichInv ps ts (enrichGo ts ps) := by
  apply enrichFold_inv ps ts ps ts (fun p hp => hp)
  refine ⟨rfl, ?_⟩
  intro i t0 t h1 h2
  rw [h1] at h2
  cases h2
  exact ⟨rfl, rfl, Or.inl rfl, Or.inl rfl⟩

/-- Claim C7: enrichment matches by name only, fills commands only into tasks
that had none (and descriptions only into tasks with none), never overwrites a
non-empty field, never touches names or line numbers, and never adds or
removes a task. -/
theorem enrich_name_match_frame (ts ps : List Task) :
    (enrichGo ts ps).length = ts.length ∧
    ∀ i t0 t, ts.get? i = some t0 → (enrichGo ts ps).get? i = some t →
      t.name = t0.name ∧ t.line = t0.line ∧
      (t0.cmds ≠ [] → t.cmds = t0.cmds) ∧ (t0.desc ≠ "" → t.desc = t0.desc) ∧
      (t.cmds = t0.cmds ∨ (t0.cmds = [] ∧ ∃ p, p ∈ ps ∧ p.name = t0.name ∧ p.cmds ≠ [] ∧ t.cmds = p.cmds)) ∧
      (t.desc = t0.desc ∨ (t0.desc = "" ∧ ∃ p, p ∈ ps ∧ p.name = t0.name ∧ p.desc ≠ "" ∧ t.desc = p.desc)) := by
  obtain ⟨hlen, hrel⟩ := enrichGo_inv ts ps
  refine ⟨hlen, ?_⟩
  intro i t0 t h1 h2
  obtain ⟨hn, hl, hc, hd⟩ := hrel i t0 t h1 h2
  refine ⟨hn, hl, ?_, ?_, hc, hd⟩
  · intro hne
    rcases hc with hc1 | hc2
    · exact hc1
    · exact absurd hc2.1 hne
  · intro hne
    rcases hd with hd1 | hd2
    · exact hd1
    · exact absurd hd2.1 hne

/-- The structured listing of the spec's enrichment scenario: `build` and
`test`, no command data. -/
def listedTasks : List Task :=
  [{ name := "build", desc := "", cmds := [], line := 0 },
   { name := "test", desc := "", cmds := [], line := 0 }]

/-- The direct file parse of the scenario: `build` has one command. -/
def parsedTasks : List Task :=
  [{ name := "build", desc := "", cmds := ["go build ./..."], line := 0 }]

/-- Witness for C7, the spec's scenario: after enrichment `build` gains exactly
the parsed command list, `test` stays empty, nothing is added, and the frame
theorem applies at index 0. -/
theorem enrich_name_match_frame_witness :
    (enrichGo listedTasks parsedTasks).length = listedTasks.length ∧
    enrichGo listedTasks parsedTasks
      = [{ name := "build", desc := "", cmds := ["go build ./..."], line := 0 },
         { name := "test", desc := "", cmds := [], line := 0 }] ∧
    ({ name := "build", desc := "", cmds := ["go build ./..."], line := 0 } : Task).name
      = ({ name := "build", desc := "", cmds := [], line := 0 } : Task).name := by
  refine ⟨(enrich_name_match_frame listedTasks parsedTasks).1, by rfl, ?_⟩
  exact ((enrich_name_match_frame listedTasks parsedTasks).2 0
    { name := "build", desc := "", cmds := [], line := 0 }
    { name := "build", desc := "", cmds := ["go build ./..."], line := 0 }
    (by rfl) (by rfl)).1

end TaskG
